import Mathlib

/-!
Verification development for the CrossDomain Knowledge Mapping Tool
triple-extraction pipeline.

The Python sources embedded here (shallowly, over explicit data):
  - pipelines/text_cleaner.py       (clean_text)
  - pipelines/extraction.py         (_prime_lookups_from_csv, _expand_to_chunk,
                                     extract_triples_from_doc, extract_triples,
                                     triples_to_graph, extract_triples_from_file)
  - pipelines/neo4j_loader.py       (store_triples_in_neo4j)

Python strings are Lean String values; every string operation the code uses
(strip, lower, upper, single-character replace, whitespace collapse) is
re-implemented here over the character list, so that all definitions are
executable and kernel-reducible.  The spaCy annotator is an external
capability: its output (tokens with text / lemma / part-of-speech /
dependency label / head index, plus noun-chunk spans) is the input data
type of the extractor, exactly as the spec treats it.
-/

/-! ### Python string primitives -/

/-- Python str.strip(): drop leading and trailing whitespace characters. -/
def pyStrip (s : String) : String :=
  ⟨((s.data.dropWhile Char.isWhitespace).reverse.dropWhile Char.isWhitespace).reverse⟩

/-- Python str.replace(a, b) for single-character needles. -/
def pyReplaceChar (s : String) (a b : Char) : String :=
  ⟨s.data.map (fun c => if c = a then b else c)⟩

/-- Python str.lower() (character-wise; ASCII suffices for the code's data). -/
def lowerStr (s : String) : String := ⟨s.data.map Char.toLower⟩

/-- Python str.upper() (character-wise). -/
def upperStr (s : String) : String := ⟨s.data.map Char.toUpper⟩

/-- Join a list of strings with single spaces (text of a contiguous token span). -/
def joinSpaced : List String → String
  | [] => ""
  | p :: rest => rest.foldl (fun acc q => acc ++ " " ++ q) p

/-! ### text_cleaner.clean_text

Source (text_cleaner.py):
  if not isinstance(text, str): return ""
  text = re.sub(r'\s+', ' ', text)
  text = text.replace('\n', ' ').replace('\r', ' ')
  return text.strip()

re.sub(r'\s+', ' ', ...) replaces every maximal run of whitespace characters
with a single space; `collapseWSAux` is that substitution, the flag recording
whether the previous character belonged to a whitespace run. -/

def collapseWSAux : Bool → List Char → List Char
  | _, [] => []
  | prevWS, c :: rest =>
    if c.isWhitespace then
      if prevWS then collapseWSAux true rest
      else ' ' :: collapseWSAux true rest
    else c :: collapseWSAux false rest

/-- re.sub(r'\s+', ' ', l) on a character list. -/
def collapseWS (l : List Char) : List Char := collapseWSAux false l

/-- Character-list body of clean_text for string input. -/
def cleanList (l : List Char) : List Char :=
  (((((collapseWS l).map (fun c => if c = '\n' then ' ' else c)).map
      (fun c => if c = '\r' then ' ' else c)).dropWhile Char.isWhitespace).reverse.dropWhile
      Char.isWhitespace).reverse

/-- clean_text.  A non-string Python argument is modelled as `none`. -/
def clean_text : Option String → String
  | none => ""
  | some t => ⟨cleanList t.data⟩

/-! ### The annotated document (output of the external spaCy engine) -/

/-- One spaCy token: surface text, lemma, coarse part-of-speech tag,
dependency label, index of the syntactic head (a root points to itself). -/
structure Token where
  text : String
  lemma_ : String
  pos_ : String
  dep_ : String
  head : Nat
deriving DecidableEq

/-- A noun-phrase chunk: a half-open index span [start, stop). -/
structure Chunk where
  start : Nat
  stop : Nat
deriving DecidableEq

/-- An annotated document: the token sequence plus its noun chunks. -/
structure Doc where
  tokens : List Token
  nounChunks : List Chunk
deriving DecidableEq

def textAt (toks : List Token) (i : Nat) : String := ((toks[i]?).map Token.text).getD ""

def lemmaAt (toks : List Token) (i : Nat) : String := ((toks[i]?).map Token.lemma_).getD ""

def posAt (toks : List Token) (i : Nat) : String := ((toks[i]?).map Token.pos_).getD ""

def depAt (toks : List Token) (i : Nat) : String := ((toks[i]?).map Token.dep_).getD ""

def headAt (toks : List Token) (i : Nat) : Nat := ((toks[i]?).map Token.head).getD i

/-- Chain of strict ancestors of token j (head, head of head, ...), stopping at
a self-headed root; fuel bounds the walk on malformed head graphs. -/
def ancestorsAux (toks : List Token) : Nat → Nat → List Nat
  | 0, _ => []
  | fuel + 1, j =>
    let h := headAt toks j
    if h = j then [] else h :: ancestorsAux toks fuel h

/-- Token j lies in the dependency subtree of token i (i itself included). -/
def inSubtree (toks : List Token) (i j : Nat) : Bool :=
  j == i || (ancestorsAux toks toks.length j).contains i

/-- spaCy token.subtree: the indices of i's subtree, in document order. -/
def subtreeIdx (toks : List Token) (i : Nat) : List Nat :=
  (List.range toks.length).filter (fun j => inSubtree toks i j)

/-- Text of the token span [a, b) (spaCy doc[a:b].text, modelled as the
space-joined token texts). -/
def spanText (toks : List Token) (a b : Nat) : String :=
  joinSpaced (((toks.drop a).take (b - a)).map Token.text)

/-! ### extraction._expand_to_chunk

Source:
  for chunk in doc.noun_chunks:
      if token.i >= chunk.start and token.i < chunk.end: return chunk.text
  subtree = list(token.subtree)
  if subtree: return doc[subtree[0].i : subtree[-1].i + 1].text
  return token.text
-/

def expand_to_chunk (doc : Doc) (i : Nat) : String :=
  match doc.nounChunks.find? (fun c => decide (c.start ≤ i ∧ i < c.stop)) with
  | some c => spanText doc.tokens c.start c.stop
  | none =>
    match subtreeIdx doc.tokens i with
    | [] => textAt doc.tokens i
    | a :: rest => spanText doc.tokens a (rest.getLastD a + 1)

/-- Modelled from the spec's words (phrase-expansion rule, spec 4.4): text of
the first noun-phrase chunk containing the token if one exists; otherwise the
minimal contiguous token span covering the token's entire dependency subtree;
otherwise (subtree empty) the token's own text.  The minimal covering span of
a non-empty index set runs from its minimum to its maximum. -/
def expandSpecRule (doc : Doc) (i : Nat) : String :=
  match doc.nounChunks.find? (fun c => decide (c.start ≤ i ∧ i < c.stop)) with
  | some c => spanText doc.tokens c.start c.stop
  | none =>
    match subtreeIdx doc.tokens i with
    | [] => textAt doc.tokens i
    | a :: rest => spanText doc.tokens (rest.foldl Nat.min a) (rest.foldl Nat.max a + 1)

/-! ### extraction.extract_triples_from_doc — strategy A (DependencyMatcher)

Pattern: an anchor token with POS in {VERB, AUX}; a direct dependent with
dependency label in {nsubj, nsubjpass}; a direct dependent with dependency
label in {dobj, pobj, attr, dative, oprd}.  The matcher yields every
token assignment satisfying the pattern. -/

def isVerbAuxAt (toks : List Token) (v : Nat) : Bool :=
  posAt toks v == "VERB" || posAt toks v == "AUX"

/-- c is a direct dependent (child) of v whose dependency label is listed. -/
def isChildWithDepIn (toks : List Token) (v c : Nat) (deps : List String) : Bool :=
  c != v && headAt toks c == v && deps.contains (depAt toks c)

/-- One dependency match turned into a candidate triple.  The source reads:
    rel = verb.lemma_.lower()
    if RELATION_LEMMAS and rel not in RELATION_LEMMAS:
        pass  # not filtered yet; we will still include but lower priority
    triples.append((_expand_to_chunk(subj), rel, _expand_to_chunk(obj)))
The no-op branch is kept verbatim: both arms append the same triple. -/
def svoCandidate (relationLemmas : List String) (doc : Doc) (v s o : Nat) :
    List (String × String × String) :=
  let rel := lowerStr (lemmaAt doc.tokens v)
  if relationLemmas ≠ [] ∧ ¬ relationLemmas.contains rel then
    [(expand_to_chunk doc s, rel, expand_to_chunk doc o)]
  else
    [(expand_to_chunk doc s, rel, expand_to_chunk doc o)]

/-- All candidate triples from the dependency-pattern strategy. -/
def depSVOTriples (relationLemmas : List String) (doc : Doc) :
    List (String × String × String) :=
  (List.range doc.tokens.length).flatMap fun v =>
    if isVerbAuxAt doc.tokens v then
      (List.range doc.tokens.length).flatMap fun s =>
        if isChildWithDepIn doc.tokens v s ["nsubj", "nsubjpass"] then
          (List.range doc.tokens.length).flatMap fun o =>
            if isChildWithDepIn doc.tokens v o ["dobj", "pobj", "attr", "dative", "oprd"] then
              svoCandidate relationLemmas doc v s o
            else []
        else []
    else []

/-! ### extraction.extract_triples_from_doc — strategy B (surface Matcher) -/

def lowerAt (toks : List Token) (i : Nat) : String := lowerStr (textAt toks i)

/-- pattern1 = [{DEP: nsubj}, {POS in [VERB, AUX]}, {DEP in [dobj, pobj, attr]}] -/
def matchP1At (toks : List Token) (i : Nat) : Bool :=
  i + 3 ≤ toks.length &&
  depAt toks i == "nsubj" &&
  (posAt toks (i + 1) == "VERB" || posAt toks (i + 1) == "AUX") &&
  (depAt toks (i + 2) == "dobj" || depAt toks (i + 2) == "pobj" || depAt toks (i + 2) == "attr")

/-- pattern2 = [{DEP: nsubj}, {POS in [VERB, AUX]},
               {LOWER in [to, with, on, in, by]}, {DEP: pobj}] -/
def matchP2At (toks : List Token) (i : Nat) : Bool :=
  i + 4 ≤ toks.length &&
  depAt toks i == "nsubj" &&
  (posAt toks (i + 1) == "VERB" || posAt toks (i + 1) == "AUX") &&
  (["to", "with", "on", "in", "by"].contains (lowerAt toks (i + 2))) &&
  depAt toks (i + 3) == "pobj"

/-- pattern3 = [{DEP: nsubj}, {LOWER in [is, are, was, were]}, {DEP: attr}] -/
def matchP3At (toks : List Token) (i : Nat) : Bool :=
  i + 3 ≤ toks.length &&
  depAt toks i == "nsubj" &&
  (["is", "are", "was", "were"].contains (lowerAt toks (i + 1))) &&
  depAt toks (i + 2) == "attr"

/-- All (start, end) spans produced by the surface matcher. -/
def matcherMatches (toks : List Token) : List (Nat × Nat) :=
  (List.range toks.length).flatMap fun i =>
    (if matchP1At toks i then [(i, i + 3)] else []) ++
    (if matchP2At toks i then [(i, i + 4)] else []) ++
    (if matchP3At toks i then [(i, i + 3)] else [])

/-- The role-picking loop over a match span: first token with DEP nsubj becomes
the subject, else (elif) first with POS in {VERB, AUX} the verb, else first
with DEP in {dobj, pobj, attr} the object. -/
def pickRoles (toks : List Token) (s e : Nat) :
    Option Nat × Option Nat × Option Nat :=
  (List.range' s (e - s)).foldl
    (fun acc idx =>
      let su := acc.1
      let ve := acc.2.1
      let ob := acc.2.2
      if depAt toks idx == "nsubj" && su.isNone then (some idx, ve, ob)
      else if (posAt toks idx == "VERB" || posAt toks idx == "AUX") && ve.isNone then
        (su, some idx, ob)
      else if (depAt toks idx == "dobj" || depAt toks idx == "pobj" ||
               depAt toks idx == "attr") && ob.isNone then (su, ve, some idx)
      else acc)
    (none, none, none)

/-- All candidate triples from the surface-pattern fallback strategy. -/
def matcherTriples (doc : Doc) : List (String × String × String) :=
  (matcherMatches doc.tokens).flatMap fun se =>
    match pickRoles doc.tokens se.1 se.2 with
    | (some si, some vi, some oi) =>
      [(expand_to_chunk doc si, lowerStr (lemmaAt doc.tokens vi), expand_to_chunk doc oi)]
    | _ => []

/-! ### extraction.extract_triples_from_doc — merge and deduplicate

Source:
  uniq = list({(s.strip(), r.strip(), o.strip()) for (s, r, o) in triples if s and r and o})
Python truthiness of a string is non-emptiness of the UNTRIMMED string; the
strip happens inside the set comprehension, after the filter. -/

/-- The Python filter `if s and r and o` (truthiness before stripping). -/
def truthyFields (t : String × String × String) : Bool :=
  !(t.1 == "") && !(t.2.1 == "") && !(t.2.2 == "")

def trimTriple (t : String × String × String) : String × String × String :=
  (pyStrip t.1, pyStrip t.2.1, pyStrip t.2.2)

/-- The set comprehension with filter and strip; the set is modelled as the
duplicate-free list of its elements. -/
def dedupTriples (ts : List (String × String × String)) :
    List (String × String × String) :=
  ((ts.filter truthyFields).map trimTriple).dedup

/-- The raw candidate list accumulated by both strategies, in source order. -/
def candidateTriples (relationLemmas : List String) (doc : Doc) :
    List (String × String × String) :=
  depSVOTriples relationLemmas doc ++ matcherTriples doc

/-- extract_triples_from_doc.  The process-wide RELATION_LEMMAS set is passed
explicitly. -/
def extract_triples_from_doc (relationLemmas : List String) (doc : Doc) :
    List (String × String × String) :=
  dedupTriples (candidateTriples relationLemmas doc)

/-! ### extraction.extract_triples and extract_triples_from_file -/

/-- The dynamic input shape of extract_triples: raw text, a pre-annotated
document, or an iterable of text units. -/
inductive TextOrDoc where
  | raw (s : String)
  | batch (items : List String)
  | doc (d : Doc)

/-- extract_triples.  The annotator (spaCy pipeline applied to a text) is
`nlp`; `none` models a failed model load (load_nlp_model returning None). -/
def extract_triples (relationLemmas : List String) (x : TextOrDoc)
    (nlp : Option (String → Doc)) : List (String × String × String) :=
  match x with
  | .doc d => extract_triples_from_doc relationLemmas d
  | .raw s =>
    match nlp with
    | none => []
    | some m => extract_triples_from_doc relationLemmas (m s)
  | .batch items =>
    match nlp with
    | none => []
    | some m =>
      ((items.filter (fun t => t != "")).flatMap
        (fun t => extract_triples_from_doc relationLemmas (m t))).dedup

/-- File content after byte decoding: CSV rows (already parsed by the external
csv reader) or plain decoded text. -/
inductive FileContent where
  | csv (rows : List (List String))
  | plain (text : String)

/-- extract_triples_from_file: a CSV is flattened cell-by-cell with spaces,
one space-joined string per row, rows joined by spaces; otherwise the decoded
text is used directly.  Returns [] when the model is unavailable. -/
def extract_triples_from_file (relationLemmas : List String) (fc : FileContent)
    (nlp : Option (String → Doc)) : List (String × String × String) :=
  match nlp with
  | none => []
  | some m =>
    let text :=
      match fc with
      | .csv rows => joinSpaced (rows.map joinSpaced)
      | .plain t => t
    extract_triples relationLemmas (.raw text) (some m)

/-! ### extraction._prime_lookups_from_csv -/

/-- One reference-dataset row.  A `none` field models a pandas NaN cell
(a missing value in the CSV). -/
structure CsvRow where
  source : Option String
  target : Option String
  relation : Option String
  source_type : Option String
  target_type : Option String

/-- Python str() applied to a cell fetched from a pandas row: a present string
is unchanged; a missing cell is NaN and str(nan) is the string "nan". -/
def pyStrOfCell : Option String → String
  | none => "nan"
  | some s => s

/-- Insert-or-overwrite into an association list (Python dict assignment). -/
def dictInsert (d : List (String × String)) (k v : String) : List (String × String) :=
  if d.any (fun p => p.1 == k) then
    d.map (fun p => if p.1 == k then (k, v) else p)
  else d ++ [(k, v)]

/-- dict.get(k, default). -/
def dictGet (d : List (String × String)) (k dflt : String) : String :=
  ((d.find? (fun p => p.1 == k)).map (fun p => p.2)).getD dflt

/-- Add to a set modelled as a duplicate-free list. -/
def setAdd (s : List String) (x : String) : List String :=
  if s.contains x then s else s ++ [x]

/-- The pair of process-wide lookup tables built from the reference dataset. -/
structure Lookups where
  entityTypeLookup : List (String × String)
  relationLemmas : List String
deriving DecidableEq

/-- The body of the row loop in _prime_lookups_from_csv:
  s = str(row.get("source", "")).strip()             (and so on)
  if s and stype: ENTITY_TYPE_LOOKUP[s] = stype
  if t and ttype: ENTITY_TYPE_LOOKUP[t] = ttype
  rel = str(row.get("relation", "")).strip()
  if rel: RELATION_LEMMAS.add(rel.lower()) -/
def primeStep (acc : Lookups) (row : CsvRow) : Lookups :=
  let s := pyStrip (pyStrOfCell row.source)
  let t := pyStrip (pyStrOfCell row.target)
  let stype := pyStrip (pyStrOfCell row.source_type)
  let ttype := pyStrip (pyStrOfCell row.target_type)
  let d := acc.entityTypeLookup
  let d := if s ≠ "" ∧ stype ≠ "" then dictInsert d s stype else d
  let d := if t ≠ "" ∧ ttype ≠ "" then dictInsert d t ttype else d
  let rel := pyStrip (pyStrOfCell row.relation)
  let rls := if rel ≠ "" then setAdd acc.relationLemmas (lowerStr rel) else acc.relationLemmas
  ⟨d, rls⟩

/-- _prime_lookups_from_csv: both tables are cleared, then every row is
processed in order. -/
def prime_lookups_from_csv (rows : List CsvRow) : Lookups :=
  rows.foldl primeStep ⟨[], []⟩

/-! ### extraction.triples_to_graph -/

/-- A networkx node with its attribute dict {label, type}. -/
structure NodeData where
  name : String
  label : String
  ntype : String
deriving DecidableEq

/-- A networkx undirected simple graph: nodes keyed by name, and edges as
unordered endpoint pairs each carrying one relation attribute. -/
structure Graph where
  nodes : List NodeData
  edges : List (String × String × String)
deriving DecidableEq

def hasName (ns : List NodeData) (n : String) : Bool := ns.any (fun nd => nd.name == n)

/-- G.add_node(name, label=name, type=lookup.get(name, "Entity")) guarded by
`if not G.has_node(name)`. -/
def addNodeIfAbsent (lookup : List (String × String)) (ns : List NodeData)
    (n : String) : List NodeData :=
  if hasName ns n then ns else ns ++ [⟨n, n, dictGet lookup n "Entity"⟩]

def assembleNodes (lookup : List (String × String)) (ns : List NodeData)
    (t : String × String × String) : List NodeData :=
  addNodeIfAbsent lookup (addNodeIfAbsent lookup ns t.1) t.2.2

/-- Equality of unordered endpoint pairs. -/
def sameUP (p q : String × String) : Bool :=
  (p.1 == q.1 && p.2 == q.2) || (p.1 == q.2 && p.2 == q.1)

/-- G.add_edge(u, v, relation=r) on a networkx Graph: if an edge between the
unordered pair already exists its relation attribute is overwritten, else the
edge is appended. -/
def addEdgeList (es : List (String × String × String)) (u v r : String) :
    List (String × String × String) :=
  if es.any (fun e => sameUP (e.1, e.2.1) (u, v)) then
    es.map (fun e => if sameUP (e.1, e.2.1) (u, v) then (e.1, e.2.1, r) else e)
  else es ++ [(u, v, r)]

/-- One iteration of the loop in triples_to_graph for triple (s, r, o). -/
def assembleStep (lookup : List (String × String)) (g : Graph)
    (t : String × String × String) : Graph :=
  ⟨assembleNodes lookup g.nodes t, addEdgeList g.edges t.1 t.2.2 t.2.1⟩

/-- triples_to_graph, with the process-wide ENTITY_TYPE_LOOKUP passed
explicitly. -/
def triples_to_graph (lookup : List (String × String))
    (triples : List (String × String × String)) : Graph :=
  triples.foldl (assembleStep lookup) ⟨[], []⟩

/-! ### neo4j_loader.store_triples_in_neo4j

The Neo4j store is modelled as the set of Entity nodes (keyed by name) and the
set of typed relationships.  tx.merge is upsert-by-key.  The transaction works
on a pending copy; commit installs it, rollback discards it.  `failOn k`
simulates the k-th merge operation of the batch raising, `commitFails`
simulates tx.commit() raising; both code versions catch the exception, call
tx.rollback() and return 0. -/

structure GraphStore where
  nodes : List String
  rels : List (String × String × String)
deriving DecidableEq

/-- tx.merge(Node("Entity", name=n), "Entity", "name"). -/
def mergeNodeOp (st : GraphStore) (n : String) : GraphStore :=
  if st.nodes.contains n then st else { st with nodes := st.nodes ++ [n] }

/-- rel_type = rel.upper().replace(" ", "_"). -/
def relTypeOf (rel : String) : String := pyReplaceChar (upperStr rel) ' ' '_'

/-- tx.merge(Relationship(a, rtype, b)). -/
def mergeRelOp (st : GraphStore) (a rtype b : String) : GraphStore :=
  if st.rels.contains (a, rtype, b) then st else { st with rels := st.rels ++ [(a, rtype, b)] }

/-- The for-loop over triples inside the transaction.  Each triple performs
three merge operations (subject node, object node, relationship); `none`
means an operation raised. -/
def storeLoop (failOn : Nat → Bool) :
    GraphStore → Nat → Nat → List (String × String × String) →
    Option (GraphStore × Nat)
  | pending, _, count, [] => some (pending, count)
  | pending, opIdx, count, (s, r, o) :: rest =>
    if failOn opIdx then none else
    let p1 := mergeNodeOp pending s
    if failOn (opIdx + 1) then none else
    let p2 := mergeNodeOp p1 o
    if failOn (opIdx + 2) then none else
    let p3 := mergeRelOp p2 s (relTypeOf r) o
    storeLoop failOn p3 (opIdx + 3) (count + 1) rest

/-- store_triples_in_neo4j.  `conn` is the result of get_neo4j_graph (`none`
when the connection failed); the returned pair is (the visible store after the
call, the returned count). -/
def store_triples_in_neo4j (conn : Option GraphStore) (failOn : Nat → Bool)
    (commitFails : Bool) (triples : List (String × String × String)) :
    Option GraphStore × Nat :=
  match conn with
  | none => (none, 0)
  | some st =>
    match storeLoop failOn st 0 0 triples with
    | none => (some st, 0)
    | some (pending, count) =>
      if commitFails then (some st, 0) else (some pending, count)

/-! ### Concrete documents used as witnesses and counterexamples -/

/-- "Drought reduces yield": a plain subject-verb-object parse. -/
def exDocSVO : Doc :=
  ⟨[⟨"Drought", "drought", "NOUN", "nsubj", 1⟩,
    ⟨"reduces", "reduce", "VERB", "ROOT", 1⟩,
    ⟨"yield", "yield", "NOUN", "dobj", 1⟩], []⟩

/-- A document whose subject token is a whitespace-only token (spaCy emits
such tokens for runs of spaces); the parser labels are adversarial but
well-typed annotator output. -/
def exDocWS : Doc :=
  ⟨[⟨" ", " ", "X", "nsubj", 1⟩,
    ⟨"runs", "run", "VERB", "ROOT", 1⟩,
    ⟨"fast", "fast", "NOUN", "dobj", 1⟩], []⟩

/-- A document with a noun chunk, for exercising the chunk branch of the
expansion rule. -/
def exDocChunk : Doc :=
  ⟨[⟨"wheat", "wheat", "NOUN", "compound", 1⟩,
    ⟨"yield", "yield", "NOUN", "nsubj", 2⟩,
    ⟨"falls", "fall", "VERB", "ROOT", 2⟩,
    ⟨"sharply", "sharp", "ADV", "advmod", 2⟩], [⟨0, 2⟩]⟩

/-! ### Derived predicates used in the statements -/

/-- The endpoints of a stored edge. -/
def edgeEnds (e : String × String × String) : String × String := (e.1, e.2.1)

/-- No two stored edges share the same unordered endpoint pair. -/
def edgesDistinct (es : List (String × String × String)) : Prop :=
  List.Pairwise (fun e₁ e₂ => sameUP (edgeEnds e₁) (edgeEnds e₂) = false) es

/-- Adjacent characters are not both whitespace: a character list satisfying
this chainwise contains no run of two or more consecutive whitespace
characters. -/
def noTwoWS (a b : Char) : Prop := ¬(a.isWhitespace = true ∧ b.isWhitespace = true)

/-! ### Helper lemmas: sorted index lists -/

theorem foldl_min_eq : ∀ (rest : List Nat) (a : Nat), (∀ b ∈ rest, a ≤ b) →
    rest.foldl Nat.min a = a := by
  intro rest
  induction rest with
  | nil => intro a _; rfl
  | cons b r ih =>
    intro a h
    have hab : Nat.min a b = a := min_eq_left (h b (List.mem_cons_self b r))
    show List.foldl Nat.min (Nat.min a b) r = a
    rw [hab]
    exact ih a (fun c hc => h c (List.mem_cons_of_mem _ hc))

theorem foldl_max_eq_getLastD : ∀ (rest : List Nat) (a : Nat),
    List.Pairwise (· ≤ ·) (a :: rest) → rest.foldl Nat.max a = rest.getLastD a := by
  intro rest
  induction rest with
  | nil => intro a _; rfl
  | cons b r ih =>
    intro a h
    rw [List.pairwise_cons] at h
    have hab : Nat.max a b = b := max_eq_right (h.1 b (List.mem_cons_self b r))
    show List.foldl Nat.max (Nat.max a b) r = (b :: r).getLastD a
    rw [hab, List.getLastD_cons]
    exact ih b h.2

theorem subtreeIdx_sorted (toks : List Token) (i : Nat) :
    List.Pairwise (· < ·) (subtreeIdx toks i) :=
  List.Pairwise.filter _ (List.pairwise_lt_range _)

/-- Claim C3: for every subject or object token, the phrase-expansion rule
returns the text of the first noun-phrase chunk containing the token if one
exists, otherwise the text of the minimal contiguous token span covering the
token's entire dependency subtree, otherwise (subtree empty) the token's own
text: the code's expansion equals the rule modelled from the spec's words. -/
theorem C3_expansion_rule : ∀ (doc : Doc) (i : Nat),
    expand_to_chunk doc i = expandSpecRule doc i := by
  intro doc i
  unfold expand_to_chunk expandSpecRule
  cases hfind : doc.nounChunks.find? (fun c => decide (c.start ≤ i ∧ i < c.stop)) with
  | some c => rfl
  | none =>
    cases hst : subtreeIdx doc.tokens i with
    | nil => rfl
    | cons a rest =>
      have hsort : List.Pairwise (· < ·) (a :: rest) := hst ▸ subtreeIdx_sorted doc.tokens i
      have hle : List.Pairwise (· ≤ ·) (a :: rest) :=
        hsort.imp (fun h => Nat.le_of_lt h)
      have hmin : rest.foldl Nat.min a = a := by
        rw [List.pairwise_cons] at hsort
        exact foldl_min_eq rest a (fun b hb => Nat.le_of_lt (hsort.1 b hb))
      have hmax : rest.foldl Nat.max a = rest.getLastD a := foldl_max_eq_getLastD rest a hle
      show spanText doc.tokens a (rest.getLastD a + 1) =
        spanText doc.tokens (rest.foldl Nat.min a) (rest.foldl Nat.max a + 1)
      rw [hmin, hmax]

/-- Claim C9: the Relation Lemma Set never filters extraction output — for any
two contents of the set (including empty versus non-empty), extraction from
the same annotated document returns the same triples; triples whose relation
lemma is unseen are still included (the filtering branch is a no-op). -/
theorem C9_relation_lemmas_advisory : ∀ (rl1 rl2 : List String) (doc : Doc),
    extract_triples_from_doc rl1 doc = extract_triples_from_doc rl2 doc := by
  intro rl1 rl2 doc
  simp only [extract_triples_from_doc, candidateTriples, depSVOTriples, svoCandidate, ite_self]

/-- Claim C7: for raw-text, batch, and file-bytes inputs, when the linguistic
model cannot be loaded (the loader returns a null annotator), the extraction
entry points return an empty triple list rather than raising. -/
theorem C7_null_model_empty : ∀ (rl : List String) (s : String) (ts : List String)
    (fc : FileContent),
    extract_triples rl (.raw s) none = [] ∧
    extract_triples rl (.batch ts) none = [] ∧
    extract_triples_from_file rl fc none = [] :=
  fun _ _ _ _ => ⟨rfl, rfl, rfl⟩

/-- Claim C4 is violated by the code (code bug): for a row whose source_type
cell is missing, pandas yields NaN, str(NaN) is the non-empty string "nan",
so the builder adds the mapping source → "nan" instead of ignoring the missing
field.  Evaluated at the failing input row
(source=Wheat, target=Soil, relation=requires, source_type=NaN,
target_type=Soil). -/
theorem C4_missing_type_not_ignored :
    prime_lookups_from_csv [⟨some "Wheat", some "Soil", some "requires", none, some "Soil"⟩] =
      ⟨[("Wheat", "nan"), ("Soil", "Soil")], ["requires"]⟩ ∧
    dictGet (prime_lookups_from_csv
      [⟨some "Wheat", some "Soil", some "requires", none, some "Soil"⟩]).entityTypeLookup
      "Wheat" "Entity" = "nan" := by
  constructor
  · decide
  · decide

/-- Claim C1 is violated by the code as stated: the emptiness filter tests
Python truthiness of the UNTRIMMED fields, so a whitespace-only subject
survives the filter and is then trimmed to the empty string.  On a document
whose subject token is a single space, the returned list contains a triple
whose subject is empty after trimming. -/
theorem C1_counterexample :
    ("", "run", "fast") ∈ extract_triples_from_doc [] exDocWS ∧ pyStrip "" = "" :=
  ⟨by decide, rfl⟩

/-- Claim C1 (amended): the returned list is duplicate-free and contains a
triple exactly when it is the whitespace-trimmed image of a candidate triple
of the two strategies all of whose fields are non-empty BEFORE trimming;
candidates with a field empty before trimming are dropped, but a field made of
whitespace only survives and trims to the empty string. -/
theorem C1_dedup_semantics : ∀ (rl : List String) (doc : Doc),
    (extract_triples_from_doc rl doc).Nodup ∧
    ∀ t, t ∈ extract_triples_from_doc rl doc ↔
      ∃ c ∈ candidateTriples rl doc, truthyFields c = true ∧ t = trimTriple c := by
  intro rl doc
  refine ⟨List.nodup_dedup _, fun t => ?_⟩
  simp only [extract_triples_from_doc, dedupTriples, List.mem_dedup, List.mem_map,
    List.mem_filter]
  constructor
  · rintro ⟨c, ⟨hc, ht⟩, rfl⟩
    exact ⟨c, hc, ht, rfl⟩
  · rintro ⟨c, hc, ht, rfl⟩
    exact ⟨c, ⟨hc, ht⟩, rfl⟩

/-- Witness for C1_dedup_semantics at a concrete document. -/
theorem C1_dedup_semantics_witness :
    ("Drought", "reduce", "yield") ∈ extract_triples_from_doc [] exDocSVO :=
  ((C1_dedup_semantics [] exDocSVO).2 ("Drought", "reduce", "yield")).mpr
    ⟨("Drought", "reduce", "yield"), by decide, by decide, by decide⟩

/-- Claim C2: for every verb or auxiliary-verb token V with a child S whose
dependency label is nsubj or nsubjpass and a child O whose dependency label is
dobj, pobj, attr, dative, or oprd, the dependency-pattern strategy emits the
triple (expansion of S, V's lemma lowercased, expansion of O); several objects
under the same verb each yield their own triple with the same subject and
relation, since the statement holds for every qualifying O. -/
theorem C2_dep_strategy_emits : ∀ (rl : List String) (doc : Doc) (v s o : Nat),
    v < doc.tokens.length → s < doc.tokens.length → o < doc.tokens.length →
    (posAt doc.tokens v = "VERB" ∨ posAt doc.tokens v = "AUX") →
    s ≠ v → headAt doc.tokens s = v →
    (depAt doc.tokens s = "nsubj" ∨ depAt doc.tokens s = "nsubjpass") →
    o ≠ v → headAt doc.tokens o = v →
    depAt doc.tokens o ∈ (["dobj", "pobj", "attr", "dative", "oprd"] : List String) →
    (expand_to_chunk doc s, lowerStr (lemmaAt doc.tokens v), expand_to_chunk doc o) ∈
      depSVOTriples rl doc := by
  intro rl doc v s o hv hs ho hpos hsv hheads hdeps hov hheado hdepo
  have h1 : isVerbAuxAt doc.tokens v = true := by
    rcases hpos with h | h <;> simp [isVerbAuxAt, h]
  have h2 : isChildWithDepIn doc.tokens v s ["nsubj", "nsubjpass"] = true := by
    rcases hdeps with h | h <;> simp [isChildWithDepIn, hsv, hheads, h]
  have h3 : isChildWithDepIn doc.tokens v o ["dobj", "pobj", "attr", "dative", "oprd"] = true := by
    simp only [List.mem_cons, List.not_mem_nil, or_false] at hdepo
    rcases hdepo with h | h | h | h | h <;> simp [isChildWithDepIn, hov, hheado, h]
  unfold depSVOTriples
  rw [List.mem_flatMap]
  refine ⟨v, List.mem_range.mpr hv, ?_⟩
  rw [if_pos h1, List.mem_flatMap]
  refine ⟨s, List.mem_range.mpr hs, ?_⟩
  rw [if_pos h2, List.mem_flatMap]
  refine ⟨o, List.mem_range.mpr ho, ?_⟩
  rw [if_pos h3]
  simp [svoCandidate]

/-- Witness for C2_dep_strategy_emits on the document for
"Drought reduces yield". -/
theorem C2_dep_strategy_emits_witness :
    (expand_to_chunk exDocSVO 0, lowerStr (lemmaAt exDocSVO.tokens 1),
      expand_to_chunk exDocSVO 2) ∈ depSVOTriples [] exDocSVO :=
  C2_dep_strategy_emits [] exDocSVO 1 0 2 (by decide) (by decide) (by decide)
    (Or.inl (by decide)) (by decide) (by decide) (Or.inl (by decide)) (by decide)
    (by decide) (by decide)

/-! ### Helper lemmas: graph assembly invariants -/

theorem addEdgeList_distinct {es : List (String × String × String)} {u v r : String}
    (h : edgesDistinct es) : edgesDistinct (addEdgeList es u v r) := by
  unfold addEdgeList
  by_cases hex : es.any (fun e => sameUP (e.1, e.2.1) (u, v)) = true
  · rw [if_pos hex]
    refine List.Pairwise.map _ ?_ h
    intro a b hab
    have ha : edgeEnds (if sameUP (a.1, a.2.1) (u, v) = true then (a.1, a.2.1, r) else a) =
        edgeEnds a := by
      by_cases h' : sameUP (a.1, a.2.1) (u, v) = true <;> simp [h', edgeEnds]
    have hb : edgeEnds (if sameUP (b.1, b.2.1) (u, v) = true then (b.1, b.2.1, r) else b) =
        edgeEnds b := by
      by_cases h' : sameUP (b.1, b.2.1) (u, v) = true <;> simp [h', edgeEnds]
    simpa [ha, hb] using hab
  · rw [if_neg hex]
    have hex' : es.any (fun e => sameUP (e.1, e.2.1) (u, v)) = false := by
      revert hex; cases es.any (fun e => sameUP (e.1, e.2.1) (u, v)) <;> simp
    rw [edgesDistinct, List.pairwise_append]
    refine ⟨h, List.pairwise_singleton _ _, ?_⟩
    intro a ha b hb
    rw [List.mem_singleton] at hb
    subst hb
    have hfa := List.any_eq_false.mp hex' a ha
    simp only [edgeEnds]
    revert hfa
    cases sameUP (a.1, a.2.1) (u, v) <;> simp

theorem addNodeIfAbsent_names_nodup {lookup : List (String × String)}
    {ns : List NodeData} {n : String} (h : (ns.map NodeData.name).Nodup) :
    ((addNodeIfAbsent lookup ns n).map NodeData.name).Nodup := by
  unfold addNodeIfAbsent
  by_cases hx : hasName ns n = true
  · rw [if_pos hx]; exact h
  · rw [if_neg hx]
    have hx' : hasName ns n = false := by
      revert hx; cases hasName ns n <;> simp
    rw [List.map_append, List.nodup_append]
    refine ⟨h, List.nodup_singleton _, ?_⟩
    intro a ha hb
    simp only [List.map_cons, List.map_nil, List.mem_singleton] at hb
    subst hb
    rw [List.mem_map] at ha
    obtain ⟨nd, hnd, hname⟩ := ha
    have := List.any_eq_false.mp hx' nd hnd
    simp only [beq_iff_eq] at this
    exact this hname

theorem addNodeIfAbsent_mono {lookup : List (String × String)} {ns : List NodeData}
    {n : String} {nd : NodeData} (h : nd ∈ ns) : nd ∈ addNodeIfAbsent lookup ns n := by
  unfold addNodeIfAbsent
  by_cases hx : hasName ns n = true
  · rw [if_pos hx]; exact h
  · rw [if_neg hx]; exact List.mem_append_left _ h

theorem assembleStep_names_nodup {lookup : List (String × String)} {g : Graph}
    {t : String × String × String} (h : (g.nodes.map NodeData.name).Nodup) :
    (((assembleStep lookup g t).nodes).map NodeData.name).Nodup :=
  addNodeIfAbsent_names_nodup (addNodeIfAbsent_names_nodup h)

theorem assembleStep_edges_distinct {lookup : List (String × String)} {g : Graph}
    {t : String × String × String} (h : edgesDistinct g.edges) :
    edgesDistinct (assembleStep lookup g t).edges :=
  addEdgeList_distinct h

theorem assembleStep_nodes_mono {lookup : List (String × String)} {g : Graph}
    {t : String × String × String} {nd : NodeData} (h : nd ∈ g.nodes) :
    nd ∈ (assembleStep lookup g t).nodes :=
  addNodeIfAbsent_mono (addNodeIfAbsent_mono h)

theorem foldl_assemble_names_nodup (lookup : List (String × String)) :
    ∀ (ts : List (String × String × String)) (g : Graph),
    (g.nodes.map NodeData.name).Nodup →
    (((ts.foldl (assembleStep lookup) g).nodes).map NodeData.name).Nodup := by
  intro ts
  induction ts with
  | nil => intro g h; exact h
  | cons t rest ih => intro g h; exact ih _ (assembleStep_names_nodup h)

theorem foldl_assemble_edges_distinct (lookup : List (String × String)) :
    ∀ (ts : List (String × String × String)) (g : Graph),
    edgesDistinct g.edges → edgesDistinct (ts.foldl (assembleStep lookup) g).edges := by
  intro ts
  induction ts with
  | nil => intro g h; exact h
  | cons t rest ih => intro g h; exact ih _ (assembleStep_edges_distinct h)

theorem foldl_assemble_nodes_mono (lookup : List (String × String)) :
    ∀ (ts : List (String × String × String)) (g : Graph) (nd : NodeData),
    nd ∈ g.nodes → nd ∈ (ts.foldl (assembleStep lookup) g).nodes := by
  intro ts
  induction ts with
  | nil => intro g nd h; exact h
  | cons t rest ih => intro g nd h; exact ih _ _ (assembleStep_nodes_mono h)

/-- Claim C8: the Graph Assembler deduplicates nodes by exact name (node names
are duplicate-free, and a node entry, once created with its attributes, is
still present after assembling more triples), keeps at most one edge per
unordered node pair, and assembling (A, rel1, B) then (A, rel2, B) yields
exactly one edge between A and B whose relation label is rel2
(last-write-wins). -/
theorem C8_graph_assembler : ∀ (lookup : List (String × String))
    (ts ts' : List (String × String × String)) (A r1 r2 B : String),
    ((triples_to_graph lookup ts).nodes.map NodeData.name).Nodup ∧
    edgesDistinct (triples_to_graph lookup ts).edges ∧
    (∀ nd ∈ (triples_to_graph lookup ts).nodes,
      nd ∈ (triples_to_graph lookup (ts ++ ts')).nodes) ∧
    (triples_to_graph lookup [(A, r1, B), (A, r2, B)]).edges = [(A, B, r2)] := by
  intro lookup ts ts' A r1 r2 B
  refine ⟨?_, ?_, ?_, ?_⟩
  · exact foldl_assemble_names_nodup lookup ts ⟨[], []⟩ (by simp)
  · exact foldl_assemble_edges_distinct lookup ts ⟨[], []⟩ (by simp [edgesDistinct])
  · intro nd hnd
    rw [triples_to_graph, List.foldl_append]
    exact foldl_assemble_nodes_mono lookup ts' _ nd hnd
  · simp [triples_to_graph, assembleStep, addEdgeList, sameUP]

/-- Witness for C8_graph_assembler: a node created by one batch survives,
unchanged, the assembly of a second batch. -/
theorem C8_graph_assembler_witness :
    (⟨"x", "x", "Entity"⟩ : NodeData) ∈
      (triples_to_graph [] ([("x", "r", "y")] ++ [("z", "r", "w")])).nodes :=
  (C8_graph_assembler [] [("x", "r", "y")] [("z", "r", "w")] "A" "r1" "r2" "B").2.2.1
    ⟨"x", "x", "Entity"⟩ (by decide)

/-! ### Helper lemmas: the sink transaction loop -/

theorem storeLoop_count (failOn : Nat → Bool) :
    ∀ (ts : List (String × String × String)) (st : GraphStore) (k c : Nat)
    (p : GraphStore) (c' : Nat),
    storeLoop failOn st k c ts = some (p, c') → c' = c + ts.length := by
  intro ts
  induction ts with
  | nil =>
    intro st k c p c' h
    simp only [storeLoop] at h
    injection h with h'
    injection h' with h1 h2
    simp [← h2]
  | cons t rest ih =>
    intro st k c p c' h
    obtain ⟨s, r, o⟩ := t
    simp only [storeLoop] at h
    by_cases h0 : failOn k = true
    · rw [if_pos h0] at h; exact absurd h (by simp)
    · rw [if_neg h0] at h
      by_cases h1 : failOn (k + 1) = true
      · rw [if_pos h1] at h; exact absurd h (by simp)
      · rw [if_neg h1] at h
        by_cases h2 : failOn (k + 2) = true
        · rw [if_pos h2] at h; exact absurd h (by simp)
        · rw [if_neg h2] at h
          have := ih _ _ _ _ _ h
          simp only [List.length_cons]
          omega

/-- Claim C6: if persisting any triple (an exception inside the merge loop) or
the final commit fails, the whole batch is rolled back — the visible store is
unchanged — and the adapter returns 0; on success it returns the count of
triples processed, which is the length of the batch. -/
theorem C6_sink_atomicity : ∀ (st : GraphStore) (failOn : Nat → Bool) (cf : Bool)
    (ts : List (String × String × String)),
    ((storeLoop failOn st 0 0 ts = none ∨ cf = true) →
      store_triples_in_neo4j (some st) failOn cf ts = (some st, 0)) ∧
    (∀ pending count, storeLoop failOn st 0 0 ts = some (pending, count) → cf = false →
      store_triples_in_neo4j (some st) failOn cf ts = (some pending, ts.length)) := by
  intro st failOn cf ts
  constructor
  · rintro (hfail | hcf)
    · simp only [store_triples_in_neo4j]
      rw [hfail]
    · simp only [store_triples_in_neo4j]
      cases hl : storeLoop failOn st 0 0 ts with
      | none => rfl
      | some pc =>
        obtain ⟨p, c⟩ := pc
        simp [hcf]
  · intro pending count hl hcf
    have hc : count = ts.length := by
      have := storeLoop_count failOn ts st 0 0 pending count hl
      omega
    simp only [store_triples_in_neo4j]
    rw [hl]
    simp [hcf, hc]

/-- Witness for C6_sink_atomicity: a failure on the relationship merge of the
only triple leaves the store empty with count 0; the same batch with no
failure stores both entity nodes and the LIKES relationship and returns 1. -/
theorem C6_sink_atomicity_witness :
    store_triples_in_neo4j (some ⟨[], []⟩) (fun k => decide (k = 2)) false
      [("a", "likes", "b")] = (some ⟨[], []⟩, 0) ∧
    store_triples_in_neo4j (some ⟨[], []⟩) (fun _ => false) false
      [("a", "likes", "b")] = (some ⟨["a", "b"], [("a", "LIKES", "b")]⟩, 1) := by
  constructor
  · exact (C6_sink_atomicity ⟨[], []⟩ (fun k => decide (k = 2)) false
      [("a", "likes", "b")]).1 (Or.inl (by decide))
  · exact (C6_sink_atomicity ⟨[], []⟩ (fun _ => false) false [("a", "likes", "b")]).2
      ⟨["a", "b"], [("a", "LIKES", "b")]⟩ 1 (by decide) rfl

/-! ### Helper lemmas: whitespace collapsing and stripping -/

theorem collapse_ws_space : ∀ (l : List Char) (b : Bool), ∀ c ∈ collapseWSAux b l,
    c.isWhitespace = true → c = ' ' := by
  intro l
  induction l with
  | nil => intro b c hc; simp [collapseWSAux] at hc
  | cons d rest ih =>
    intro b c hc hw
    by_cases hd : d.isWhitespace
    · cases b with
      | true =>
        rw [collapseWSAux, if_pos hd, if_pos rfl] at hc
        exact ih true c hc hw
      | false =>
        rw [collapseWSAux, if_pos hd, if_neg (by simp)] at hc
        rcases List.mem_cons.mp hc with h | h
        · exact h
        · exact ih true c h hw
    · rw [collapseWSAux, if_neg hd] at hc
      rcases List.mem_cons.mp hc with h | h
      · subst h; exact absurd hw (by simpa using hd)
      · exact ih false c h hw

theorem collapse_head_true : ∀ (l : List Char), ∀ c ∈ (collapseWSAux true l).head?,
    c.isWhitespace = false := by
  intro l
  induction l with
  | nil => intro c hc; simp [collapseWSAux] at hc
  | cons d rest ih =>
    intro c hc
    by_cases hd : d.isWhitespace
    · rw [collapseWSAux, if_pos hd, if_pos rfl] at hc
      exact ih c hc
    · rw [collapseWSAux, if_neg hd] at hc
      simp only [List.head?_cons, Option.mem_def, Option.some.injEq] at hc
      subst hc
      simpa using hd

theorem collapse_chain : ∀ (l : List Char) (b : Bool),
    List.Chain' noTwoWS (collapseWSAux b l) := by
  intro l
  induction l with
  | nil => intro b; simp [collapseWSAux]
  | cons d rest ih =>
    intro b
    by_cases hd : d.isWhitespace
    · cases b with
      | true =>
        rw [collapseWSAux, if_pos hd, if_pos rfl]
        exact ih true
      | false =>
        rw [collapseWSAux, if_pos hd, if_neg (by simp)]
        rw [List.chain'_cons']
        refine ⟨?_, ih true⟩
        intro y hy
        have := collapse_head_true rest y hy
        exact fun hand => by rw [this] at hand; exact absurd hand.2 (by simp)
    · rw [collapseWSAux, if_neg hd]
      rw [List.chain'_cons']
      refine ⟨?_, ih false⟩
      intro y hy
      exact fun hand => hd (by simpa using hand.1)

theorem collapse_flag_irrel : ∀ (l : List Char) (b1 b2 : Bool),
    (∀ c ∈ l.head?, c.isWhitespace = false) → collapseWSAux b1 l = collapseWSAux b2 l := by
  intro l b1 b2 h
  cases l with
  | nil => rfl
  | cons d rest =>
    have hd : d.isWhitespace = false := h d (by simp)
    rw [collapseWSAux, collapseWSAux, if_neg (by simp [hd]), if_neg (by simp [hd])]

theorem collapse_fix : ∀ (l : List Char),
    (∀ c ∈ l, c.isWhitespace = true → c = ' ') → List.Chain' noTwoWS l →
    collapseWSAux false l = l := by
  intro l
  induction l with
  | nil => intro _ _; rfl
  | cons d rest ih =>
    intro hall hch
    rw [List.chain'_cons'] at hch
    by_cases hd : d.isWhitespace
    · have hd' : d = ' ' := hall d (by simp) (by simpa using hd)
      rw [collapseWSAux, if_pos hd, if_neg (by simp)]
      have hrest : ∀ c ∈ rest.head?, c.isWhitespace = false := by
        intro c hc
        have := hch.1 c hc
        unfold noTwoWS at this
        revert this
        by_cases hcw : c.isWhitespace = true
        · intro h'; exact absurd ⟨by simpa using hd, hcw⟩ h'
        · intro _; simpa using hcw
      rw [collapse_flag_irrel rest true false hrest]
      rw [ih (fun c hc hw => hall c (List.mem_cons_of_mem _ hc) hw) hch.2, hd']
    · rw [collapseWSAux, if_neg hd]
      rw [ih (fun c hc hw => hall c (List.mem_cons_of_mem _ hc) hw) hch.2]

theorem map_preserve_id : ∀ (l : List Char) (f : Char → Char),
    (∀ c ∈ l, f c = c) → l.map f = l := by
  intro l f
  induction l with
  | nil => intro _; rfl
  | cons d rest ih =>
    intro h
    rw [List.map_cons, h d (by simp), ih (fun c hc => h c (List.mem_cons_of_mem _ hc))]

theorem dropWhile_head_false (p : Char → Bool) : ∀ (l : List Char),
    ∀ c ∈ (l.dropWhile p).head?, p c = false := by
  intro l
  induction l with
  | nil => intro c hc; simp at hc
  | cons d rest ih =>
    intro c hc
    by_cases hd : p d = true
    · rw [List.dropWhile_cons, if_pos hd] at hc
      exact ih c hc
    · rw [List.dropWhile_cons, if_neg hd] at hc
      simp only [List.head?_cons, Option.mem_def, Option.some.injEq] at hc
      subst hc
      simpa using hd

theorem dropWhile_getLast?_eq (p : Char → Bool) : ∀ (l : List Char),
    l.dropWhile p ≠ [] → (l.dropWhile p).getLast? = l.getLast? := by
  intro l
  induction l with
  | nil => intro h; simp at h
  | cons d rest ih =>
    intro hne
    by_cases hd : p d = true
    · rw [List.dropWhile_cons, if_pos hd] at hne ⊢
      rw [ih hne]
      have hrest : rest ≠ [] := by
        intro h
        rw [h] at hne
        simp at hne
      cases rest with
      | nil => exact absurd rfl hrest
      | cons x xs => rw [List.getLast?_cons_cons]
    · rw [List.dropWhile_cons, if_neg hd]

theorem dropWhile_eq_self_of_head (p : Char → Bool) : ∀ (l : List Char),
    (∀ c ∈ l.head?, p c = false) → l.dropWhile p = l := by
  intro l h
  cases l with
  | nil => rfl
  | cons d rest =>
    have : p d = false := h d (by simp)
    rw [List.dropWhile_cons, if_neg (by simp [this])]

theorem chain_dropWhile {R : Char → Char → Prop} (p : Char → Bool) :
    ∀ (l : List Char), List.Chain' R l → List.Chain' R (l.dropWhile p) := by
  intro l
  induction l with
  | nil => intro h; exact h
  | cons d rest ih =>
    intro h
    by_cases hd : p d = true
    · rw [List.dropWhile_cons, if_pos hd]
      exact ih h.tail
    · rw [List.dropWhile_cons, if_neg hd]
      exact h

theorem mem_of_mem_dropWhile (p : Char → Bool) {l : List Char} {c : Char}
    (h : c ∈ l.dropWhile p) : c ∈ l :=
  (List.dropWhile_suffix p).sublist.subset h

theorem chain_reverse_noTwoWS {l : List Char} (h : List.Chain' noTwoWS l) :
    List.Chain' noTwoWS l.reverse := by
  rw [List.chain'_reverse]
  refine List.Chain'.imp ?_ h
  intro a b hab hand
  exact hab ⟨hand.2, hand.1⟩

theorem cleanList_eq_strip (l : List Char) :
    cleanList l = (((collapseWS l).dropWhile Char.isWhitespace).reverse.dropWhile
      Char.isWhitespace).reverse := by
  unfold cleanList
  have hmap1 : (collapseWS l).map (fun c => if c = '\n' then ' ' else c) = collapseWS l := by
    apply map_preserve_id
    intro c hc
    by_cases hcn : c = '\n'
    · have : c = ' ' := collapse_ws_space l false c hc (by rw [hcn]; decide)
      rw [this] at hcn
      exact absurd hcn (by decide)
    · rw [if_neg hcn]
  rw [hmap1]
  have hmap2 : (collapseWS l).map (fun c => if c = '\r' then ' ' else c) = collapseWS l := by
    apply map_preserve_id
    intro c hc
    by_cases hcr : c = '\r'
    · have : c = ' ' := collapse_ws_space l false c hc (by rw [hcr]; decide)
      rw [this] at hcr
      exact absurd hcr (by decide)
    · rw [if_neg hcr]
  rw [hmap2]

theorem cleanList_chain (l : List Char) : List.Chain' noTwoWS (cleanList l) := by
  rw [cleanList_eq_strip]
  exact chain_reverse_noTwoWS (chain_dropWhile _ _
    (chain_reverse_noTwoWS (chain_dropWhile _ _ (collapse_chain l false))))

theorem cleanList_ws_space (l : List Char) :
    ∀ c ∈ cleanList l, c.isWhitespace = true → c = ' ' := by
  rw [cleanList_eq_strip]
  intro c hc hw
  rw [List.mem_reverse] at hc
  have hc2 := mem_of_mem_dropWhile _ hc
  rw [List.mem_reverse] at hc2
  have hc3 := mem_of_mem_dropWhile _ hc2
  exact collapse_ws_space l false c hc3 hw

theorem cleanList_head (l : List Char) :
    ∀ c ∈ (cleanList l).head?, c.isWhitespace = false := by
  rw [cleanList_eq_strip]
  intro c hc
  rw [List.head?_reverse] at hc
  by_cases hX : ((collapseWS l).dropWhile Char.isWhitespace).reverse.dropWhile
      Char.isWhitespace = []
  · rw [hX] at hc
    simp at hc
  · rw [dropWhile_getLast?_eq _ _ hX, List.getLast?_reverse] at hc
    exact dropWhile_head_false _ _ c hc

theorem cleanList_last (l : List Char) :
    ∀ c ∈ (cleanList l).getLast?, c.isWhitespace = false := by
  rw [cleanList_eq_strip]
  intro c hc
  rw [List.getLast?_reverse] at hc
  exact dropWhile_head_false _ _ c hc

theorem strip_fix (m : List Char) (h1 : ∀ c ∈ m.head?, c.isWhitespace = false)
    (h2 : ∀ c ∈ m.getLast?, c.isWhitespace = false) :
    ((m.dropWhile Char.isWhitespace).reverse.dropWhile Char.isWhitespace).reverse = m := by
  rw [dropWhile_eq_self_of_head _ m h1]
  have h3 : ∀ c ∈ m.reverse.head?, Char.isWhitespace c = false := by
    intro c hc
    rw [List.head?_reverse] at hc
    exact h2 c hc
  rw [dropWhile_eq_self_of_head _ m.reverse h3, List.reverse_reverse]

theorem cleanList_idem (l : List Char) : cleanList (cleanList l) = cleanList l := by
  have h1 := cleanList_ws_space l
  have h2 := cleanList_chain l
  have h3 := cleanList_head l
  have h4 := cleanList_last l
  rw [cleanList_eq_strip (cleanList l)]
  have hfix : collapseWS (cleanList l) = cleanList l := collapse_fix _ h1 h2
  rw [hfix]
  exact strip_fix _ h3 h4

/-- Claim C5: for every string input the Text Normalizer's output contains no
run of two or more consecutive whitespace characters (newlines and carriage
returns included: all whitespace is collapsed to single spaces) and has no
leading or trailing whitespace; a non-string input yields the empty string.
The embedding is a total Lean function, so the operation never raises. -/
theorem C5_normalizer :
    (∀ s : String, List.Chain' noTwoWS (clean_text (some s)).data ∧
      (∀ c ∈ (clean_text (some s)).data.head?, c.isWhitespace = false) ∧
      (∀ c ∈ (clean_text (some s)).data.getLast?, c.isWhitespace = false)) ∧
    clean_text none = "" :=
  ⟨fun s => ⟨cleanList_chain s.data, cleanList_head s.data, cleanList_last s.data⟩, rfl⟩

/-- Witness for C5_normalizer at a concrete string. -/
theorem C5_normalizer_witness :
    List.Chain' noTwoWS (clean_text (some " a  b ")).data ∧
    clean_text (some " a  b ") = "a b" :=
  ⟨(C5_normalizer.1 " a  b ").1, by decide⟩

/-- Claim C10: the Text Normalizer is idempotent — applying clean_text to its
own output changes nothing. -/
theorem C10_clean_text_idempotent : ∀ (x : Option String),
    clean_text (some (clean_text x)) = clean_text x := by
  intro x
  cases x with
  | none =>
    show clean_text (some "") = ""
    decide
  | some t =>
    show String.mk (cleanList (cleanList t.data)) = String.mk (cleanList t.data)
    rw [cleanList_idem]
